import Mathlib

/-!
Verification development for the AI Knowledge Base repository.

The repository's backend core (circuit breakers, RAG search ranking,
search cache, answer service, conversation store) is documented in the
implementation summaries under `backend/`, while the frontend TypeScript
(axios interceptors, zustand stores) is present directly.  Pure models of
both are developed here and the documented properties are proved about
them.
-/

namespace AIKB

/-! ## Circuit breaker (AIServiceManager) -/

/-- Modelled from the spec: the circuit state of one provider
(`backend/app/services/ai_service_manager` circuit breaker, only documented in
`ERROR_HANDLING_IMPLEMENTATION_SUMMARY.md`): Closed (normal), Open (rejecting),
HalfOpen (probing). -/
inductive CircuitState where
  | closed
  | opened
  | halfOpen
deriving DecidableEq

/-- Modelled from the spec: `CircuitBreakerConfig(failure_threshold,
recovery_timeout, success_threshold, timeout)` as documented in
`ERROR_HANDLING_IMPLEMENTATION_SUMMARY.md`. -/
structure CircuitBreakerConfig where
  failure_threshold : Nat
  recovery_timeout : Nat
  success_threshold : Nat
  timeout : Nat
deriving DecidableEq

/-- Modelled from the spec: the mutable `ProviderHealth` record of one circuit
breaker: state, consecutive failure count, consecutive success count
(while HalfOpen), and the time the circuit last opened. -/
structure CircuitBreaker where
  state : CircuitState
  failureCount : Nat
  successCount : Nat
  openedAt : Nat
deriving DecidableEq

/-- A fresh breaker starts Closed with zeroed counters. -/
def CircuitBreaker.initial : CircuitBreaker :=
  { state := .closed, failureCount := 0, successCount := 0, openedAt := 0 }

/-- Outcome of one call through a circuit breaker: the provider call
succeeded, the provider call failed, or the call was rejected with
`CircuitBreakerError` because the circuit is Open. -/
inductive CircuitOutcome where
  | success
  | failure
  | rejectedOpen
deriving DecidableEq

/-- Modelled from the spec: serving a call while HalfOpen.  A success
increments the consecutive-success count and closes the circuit once
`success_threshold` is reached; any failure reopens the circuit and resets
the recovery timer to `now`. -/
def serveHalfOpen (cfg : CircuitBreakerConfig) (cb : CircuitBreaker)
    (now : Nat) (providerOk : Bool) : CircuitBreaker × CircuitOutcome :=
  if providerOk then
    if cfg.success_threshold ≤ cb.successCount + 1 then
      ({ cb with state := .closed, failureCount := 0, successCount := 0 },
       .success)
    else
      ({ cb with successCount := cb.successCount + 1 }, .success)
  else
    ({ cb with state := .opened, openedAt := now,
               failureCount := 0, successCount := 0 }, .failure)

/-- Modelled from the spec: one call through the circuit breaker at time
`now`, where `providerOk` is the outcome the provider would deliver if it
is contacted.  While Open and inside the recovery window the call is
rejected without consulting `providerOk`; once the window has elapsed the
circuit moves to HalfOpen and serves a trial call; while Closed,
consecutive failures are counted and the circuit opens when
`failure_threshold` is reached. -/
def cbCall (cfg : CircuitBreakerConfig) (cb : CircuitBreaker)
    (now : Nat) (providerOk : Bool) : CircuitBreaker × CircuitOutcome :=
  match cb.state with
  | .opened =>
      if now < cb.openedAt + cfg.recovery_timeout then
        (cb, .rejectedOpen)
      else
        serveHalfOpen cfg { cb with state := .halfOpen, successCount := 0 }
          now providerOk
  | .halfOpen => serveHalfOpen cfg cb now providerOk
  | .closed =>
      if providerOk then
        ({ cb with failureCount := 0 }, .success)
      else if cfg.failure_threshold ≤ cb.failureCount + 1 then
        ({ cb with state := .opened, failureCount := 0, openedAt := now },
         .failure)
      else
        ({ cb with failureCount := cb.failureCount + 1 }, .failure)

/-- Iterate `n` consecutive failing calls at time `now`. -/
def cbFailures (cfg : CircuitBreakerConfig) (now : Nat) :
    Nat → CircuitBreaker → CircuitBreaker
  | 0, cb => cb
  | n + 1, cb => cbFailures cfg now n (cbCall cfg cb now false).1

/-- Iterate `n` consecutive successful calls at time `now`. -/
def cbSuccesses (cfg : CircuitBreakerConfig) (now : Nat) :
    Nat → CircuitBreaker → CircuitBreaker
  | 0, cb => cb
  | n + 1, cb => cbSuccesses cfg now n (cbCall cfg cb now true).1


theorem cbFailures_closed_lt (cfg : CircuitBreakerConfig) (T : Nat) :
    ∀ n fc sc oa, fc + n < cfg.failure_threshold →
      cbFailures cfg T n ⟨.closed, fc, sc, oa⟩ = ⟨.closed, fc + n, sc, oa⟩ := by
  intro n
  induction n with
  | zero => intro fc sc oa _; simp [cbFailures]
  | succ n ih =>
      intro fc sc oa hlt
      have hstep : (cbCall cfg ⟨.closed, fc, sc, oa⟩ T false).1
          = (⟨.closed, fc + 1, sc, oa⟩ : CircuitBreaker) := by
        simp only [cbCall, Bool.false_eq_true, if_false]
        rw [if_neg (by omega)]
      rw [cbFailures, hstep, ih (fc + 1) sc oa (by omega)]
      have h1 : fc + 1 + n = fc + (n + 1) := by omega
      rw [h1]

theorem cbFailures_closed_opens (cfg : CircuitBreakerConfig) (T : Nat) :
    ∀ n fc sc oa, fc < cfg.failure_threshold →
      fc + n = cfg.failure_threshold →
      cbFailures cfg T n ⟨.closed, fc, sc, oa⟩ = ⟨.opened, 0, sc, T⟩ := by
  intro n
  induction n with
  | zero => intro fc sc oa hlt heq; omega
  | succ n ih =>
      intro fc sc oa hlt heq
      by_cases hn : n = 0
      · subst hn
        have hopen : (cbCall cfg ⟨.closed, fc, sc, oa⟩ T false).1
            = (⟨.opened, 0, sc, T⟩ : CircuitBreaker) := by
          simp only [cbCall, Bool.false_eq_true, if_false]
          rw [if_pos (by omega)]
        rw [cbFailures, hopen, cbFailures]
      · have hstep : (cbCall cfg ⟨.closed, fc, sc, oa⟩ T false).1
            = (⟨.closed, fc + 1, sc, oa⟩ : CircuitBreaker) := by
          simp only [cbCall, Bool.false_eq_true, if_false]
          rw [if_neg (by omega)]
        rw [cbFailures, hstep, ih (fc + 1) sc oa (by omega) (by omega)]

theorem cbSuccesses_closed_state (cfg : CircuitBreakerConfig) (T : Nat) :
    ∀ n fc sc oa,
      (cbSuccesses cfg T n ⟨.closed, fc, sc, oa⟩).state = .closed := by
  intro n
  induction n with
  | zero => intro fc sc oa; simp [cbSuccesses]
  | succ n ih =>
      intro fc sc oa
      have hstep : (cbCall cfg ⟨.closed, fc, sc, oa⟩ T true).1
          = (⟨.closed, 0, sc, oa⟩ : CircuitBreaker) := by
        simp [cbCall]
      rw [cbSuccesses, hstep]
      exact ih 0 sc oa

theorem cbSuccesses_halfOpen_closes (cfg : CircuitBreakerConfig) (T : Nat) :
    ∀ n fc sc oa, sc < cfg.success_threshold →
      sc + n = cfg.success_threshold →
      (cbSuccesses cfg T n ⟨.halfOpen, fc, sc, oa⟩).state = .closed := by
  intro n
  induction n with
  | zero => intro fc sc oa hlt heq; omega
  | succ n ih =>
      intro fc sc oa hlt heq
      by_cases hclose : cfg.success_threshold ≤ sc + 1
      · have hstep : (cbCall cfg ⟨.halfOpen, fc, sc, oa⟩ T true).1
            = (⟨.closed, 0, 0, oa⟩ : CircuitBreaker) := by
          simp only [cbCall, serveHalfOpen, if_true]
          rw [if_pos hclose]
        rw [cbSuccesses, hstep]
        exact cbSuccesses_closed_state cfg T n 0 0 oa
      · have hstep : (cbCall cfg ⟨.halfOpen, fc, sc, oa⟩ T true).1
            = (⟨.halfOpen, fc, sc + 1, oa⟩ : CircuitBreaker) := by
          simp only [cbCall, serveHalfOpen, if_true]
          rw [if_neg hclose]
        rw [cbSuccesses, hstep]
        exact ih fc (sc + 1) oa (by omega) (by omega)

/-- C1: starting Closed, after exactly `failure_threshold` consecutive
failures the circuit is Open (a call before that is still served), the next
call inside the recovery window is rejected with `CircuitBreakerError`
without contacting the provider (the breaker and outcome are independent of
the provider's would-be answer and the state is unchanged); once the
recovery timeout elapses the circuit serves exactly one trial call in
HalfOpen — a failure reopens it with the recovery timer reset to the trial
time, so the following call inside the new window is rejected again — and
`success_threshold` consecutive successes while HalfOpen close the
circuit. -/
theorem circuitBreaker_lifecycle (cfg : CircuitBreakerConfig) (T : Nat)
    (hft : 0 < cfg.failure_threshold) (hst : 0 < cfg.success_threshold) :
    cbFailures cfg T cfg.failure_threshold CircuitBreaker.initial
      = (⟨.opened, 0, 0, T⟩ : CircuitBreaker) ∧
    (∀ t ok, (cbCall cfg
        (cbFailures cfg T (cfg.failure_threshold - 1) CircuitBreaker.initial)
        t ok).2 ≠ CircuitOutcome.rejectedOpen) ∧
    (∀ t ok, t < T + cfg.recovery_timeout →
      cbCall cfg (cbFailures cfg T cfg.failure_threshold CircuitBreaker.initial) t ok
        = (cbFailures cfg T cfg.failure_threshold CircuitBreaker.initial,
           CircuitOutcome.rejectedOpen)) ∧
    (∀ t ok, T + cfg.recovery_timeout ≤ t →
      (cbCall cfg (cbFailures cfg T cfg.failure_threshold CircuitBreaker.initial)
        t ok).2 ≠ CircuitOutcome.rejectedOpen) ∧
    (∀ t, T + cfg.recovery_timeout ≤ t → 1 < cfg.success_threshold →
      (cbCall cfg (cbFailures cfg T cfg.failure_threshold CircuitBreaker.initial)
        t true).1.state = CircuitState.halfOpen) ∧
    (∀ cb t, cb.state = CircuitState.halfOpen →
      (cbCall cfg cb t false).1.state = CircuitState.opened ∧
      (cbCall cfg cb t false).1.openedAt = t) ∧
    (∀ t t' ok, T + cfg.recovery_timeout ≤ t → t' < t + cfg.recovery_timeout →
      (cbCall cfg
        (cbCall cfg (cbFailures cfg T cfg.failure_threshold CircuitBreaker.initial)
          t false).1 t' ok).2 = CircuitOutcome.rejectedOpen) ∧
    (∀ fc oa t,
      (cbSuccesses cfg t cfg.success_threshold
        (⟨.halfOpen, fc, 0, oa⟩ : CircuitBreaker)).state = CircuitState.closed) := by
  have hopen : cbFailures cfg T cfg.failure_threshold CircuitBreaker.initial
      = (⟨.opened, 0, 0, T⟩ : CircuitBreaker) := by
    simpa [CircuitBreaker.initial] using
      cbFailures_closed_opens cfg T cfg.failure_threshold 0 0 0 hft (by omega)
  refine ⟨hopen, ?_, ?_, ?_, ?_, ?_, ?_, ?_⟩
  · intro t ok
    have hpre : cbFailures cfg T (cfg.failure_threshold - 1) CircuitBreaker.initial
        = (⟨.closed, cfg.failure_threshold - 1, 0, 0⟩ : CircuitBreaker) := by
      simpa [CircuitBreaker.initial] using
        cbFailures_closed_lt cfg T (cfg.failure_threshold - 1) 0 0 0 (by omega)
    rw [hpre]
    cases ok <;> simp [cbCall] <;> split <;> simp
  · intro t ok ht
    rw [hopen]
    simp only [cbCall]
    rw [if_pos ht]
  · intro t ok ht
    rw [hopen]
    simp only [cbCall]
    rw [if_neg (by omega)]
    cases ok <;> simp [serveHalfOpen] <;> split <;> simp
  · intro t ht hM
    rw [hopen]
    simp only [cbCall]
    rw [if_neg (by omega)]
    simp only [serveHalfOpen, if_true]
    rw [if_neg (by omega)]
  · intro cb t hs
    cases cb with
    | mk s fc sc oa =>
        simp only at hs
        subst hs
        simp [cbCall, serveHalfOpen]
  · intro t t' ok ht ht'
    rw [hopen]
    have htrial : (cbCall cfg (⟨.opened, 0, 0, T⟩ : CircuitBreaker) t false).1
        = (⟨.opened, 0, 0, t⟩ : CircuitBreaker) := by
      simp only [cbCall]
      rw [if_neg (by omega)]
      simp [serveHalfOpen]
    rw [htrial]
    simp only [cbCall]
    rw [if_pos ht']
  · intro fc oa t
    exact cbSuccesses_halfOpen_closes cfg t cfg.success_threshold fc 0 oa hst (by omega)

/-- Witness for C1 at the documented configuration `failure_threshold = 5`,
`recovery_timeout = 60`, `success_threshold = 3`, `timeout = 30`: five
failures at time 100 open the circuit; a call at 130 is rejected; a call at
160 is served as a trial; after a failed trial at 160 the call at 170 is
rejected again; three HalfOpen successes close the circuit. -/
theorem circuitBreaker_lifecycle_witness :
    cbFailures ⟨5, 60, 3, 30⟩ 100 5 CircuitBreaker.initial
      = (⟨.opened, 0, 0, 100⟩ : CircuitBreaker) ∧
    cbCall ⟨5, 60, 3, 30⟩ (cbFailures ⟨5, 60, 3, 30⟩ 100 5 CircuitBreaker.initial)
        130 true
      = (cbFailures ⟨5, 60, 3, 30⟩ 100 5 CircuitBreaker.initial,
         CircuitOutcome.rejectedOpen) ∧
    (cbCall ⟨5, 60, 3, 30⟩ (cbFailures ⟨5, 60, 3, 30⟩ 100 5 CircuitBreaker.initial)
        160 false).2 ≠ CircuitOutcome.rejectedOpen ∧
    (cbCall ⟨5, 60, 3, 30⟩ (cbFailures ⟨5, 60, 3, 30⟩ 100 5 CircuitBreaker.initial)
        160 true).1.state = CircuitState.halfOpen ∧
    (cbCall ⟨5, 60, 3, 30⟩
      (cbCall ⟨5, 60, 3, 30⟩ (cbFailures ⟨5, 60, 3, 30⟩ 100 5 CircuitBreaker.initial)
        160 false).1 170 true).2 = CircuitOutcome.rejectedOpen ∧
    (cbSuccesses ⟨5, 60, 3, 30⟩ 160 3 (⟨.halfOpen, 2, 0, 100⟩ : CircuitBreaker)).state
      = CircuitState.closed := by
  have h := circuitBreaker_lifecycle ⟨5, 60, 3, 30⟩ 100 (by decide) (by decide)
  exact ⟨h.1, h.2.2.1 130 true (by decide), h.2.2.2.1 160 false (by decide),
    h.2.2.2.2.1 160 (by decide) (by decide),
    h.2.2.2.2.2.2.1 160 170 true (by decide) (by decide),
    h.2.2.2.2.2.2.2 2 100 160⟩

/-! ## ConversationContextStore -/

/-- Modelled from the spec: the role of one conversation turn. -/
inductive Role where
  | user
  | assistant
deriving DecidableEq

/-- Modelled from the spec: one `ConversationTurn` of
`backend/app/chat/conversation_service.py` (only documented in the
conversation-management implementation summary): conversation id, role,
content and creation order. -/
structure ConversationTurn where
  conversationId : Nat
  role : Role
  content : String
  createdAt : Nat
deriving DecidableEq

/-- Modelled from the spec: the append-only turn log of the
`ConversationContextStore`; `turns` is kept in append (chronological)
order, oldest first. -/
structure ConversationStore where
  turns : List ConversationTurn
deriving DecidableEq

/-- Modelled from the spec: `appendTurn` appends one turn at the end of the
log; turns are never mutated after creation. -/
def appendTurn (st : ConversationStore) (t : ConversationTurn) : ConversationStore :=
  ⟨st.turns ++ [t]⟩

/-- All turns of one conversation, in chronological (append) order. -/
def convTurns (st : ConversationStore) (cid : Nat) : List ConversationTurn :=
  st.turns.filter (fun t => t.conversationId == cid)

/-- Modelled from the spec: `recentTurns(conversationId, maxTurns)`
(`get_conversation_context`) returns the `maxTurns` most recently appended
turns of that conversation, ordered oldest to newest. -/
def recentTurns (st : ConversationStore) (cid : Nat) (maxTurns : Nat) :
    List ConversationTurn :=
  let ts := convTurns st cid
  ts.drop (ts.length - maxTurns)

/-- C8: `recentTurns` returns a suffix of the conversation's chronological
turn list (hence the most recently appended turns, oldest first) of length
`min maxTurns n`; in particular for a conversation whose log holds exactly
the three turns `a, b, c` appended in that order, `recentTurns` with
`maxTurns = 2` returns exactly `[b, c]`. -/
theorem recentTurns_spec (st : ConversationStore) (cid maxTurns : Nat) :
    recentTurns st cid maxTurns <:+ convTurns st cid ∧
    (recentTurns st cid maxTurns).length = min maxTurns (convTurns st cid).length ∧
    (∀ a b c : ConversationTurn, a.conversationId = cid →
      b.conversationId = cid → c.conversationId = cid →
      recentTurns ⟨[a, b, c]⟩ cid 2 = [b, c]) := by
  refine ⟨List.drop_suffix _ _, ?_, ?_⟩
  · rw [recentTurns, List.length_drop]
    omega
  · intro a b c ha hb hc
    simp [recentTurns, convTurns, ha, hb, hc]

/-- Witness for C8: a conversation with three prior turns; `recentTurns`
with `maxTurns = 2` returns exactly the two most recent, oldest first. -/
theorem recentTurns_spec_witness :
    recentTurns ⟨[⟨7, .user, "q1", 1⟩, ⟨7, .assistant, "a1", 2⟩,
        ⟨7, .user, "q2", 3⟩]⟩ 7 2
      = [⟨7, .assistant, "a1", 2⟩, ⟨7, .user, "q2", 3⟩] :=
  (recentTurns_spec ⟨[⟨7, .user, "q1", 1⟩, ⟨7, .assistant, "a1", 2⟩,
      ⟨7, .user, "q2", 3⟩]⟩ 7 2).2.2
    ⟨7, .user, "q1", 1⟩ ⟨7, .assistant, "a1", 2⟩ ⟨7, .user, "q2", 3⟩
    rfl rfl rfl

/-! ## AIServiceManager provider selection and degradation -/

/-- Modelled from the spec: one configured AI provider, with its id and its
circuit breaker, listed in priority order inside the manager. -/
structure Provider where
  id : String
  breaker : CircuitBreaker
deriving DecidableEq

/-- Modelled from the spec: `ServiceDegradationError` carries the list of
providers that were tried when every configured provider was
unavailable. -/
structure ServiceDegradationError where
  attempted : List String
deriving DecidableEq

/-- Modelled from the spec: the manager iterates providers in priority
order, skipping any whose circuit is Open, and picks the first available
one. -/
def availableProvider (ps : List Provider) : Option Provider :=
  ps.find? (fun p => !(p.breaker.state == .opened))

/-- Modelled from the spec: one call through the `AIServiceManager`: pick
the first provider whose circuit is not Open and invoke it through its
circuit breaker; if every provider's circuit is Open, raise
`ServiceDegradationError` carrying the list of providers that were
tried. -/
def managerCall (cfg : CircuitBreakerConfig) (ps : List Provider) (now : Nat)
    (invoke : String → Bool) :
    Except ServiceDegradationError (String × CircuitBreaker × CircuitOutcome) :=
  match availableProvider ps with
  | none => .error ⟨ps.map (fun p => p.id)⟩
  | some p => .ok (p.id, cbCall cfg p.breaker now (invoke p.id))

/-- C7: when every configured provider's circuit is Open, `managerCall`
raises `ServiceDegradationError` carrying the ids of all configured
providers; in particular with two configured providers both Open, the call
errors with both provider ids listed. -/
theorem managerCall_all_open (cfg : CircuitBreakerConfig) (ps : List Provider)
    (now : Nat) (invoke : String → Bool)
    (h : ∀ p ∈ ps, p.breaker.state = CircuitState.opened) :
    managerCall cfg ps now invoke = .error ⟨ps.map (fun p => p.id)⟩ ∧
    (∀ p1 p2 : Provider, p1.breaker.state = CircuitState.opened →
      p2.breaker.state = CircuitState.opened →
      managerCall cfg [p1, p2] now invoke = .error ⟨[p1.id, p2.id]⟩) := by
  constructor
  · have hfind : availableProvider ps = none := by
      rw [availableProvider, List.find?_eq_none]
      intro p hp
      simp [h p hp]
    rw [managerCall, hfind]
  · intro p1 p2 h1 h2
    have hfind : availableProvider [p1, p2] = none := by
      rw [availableProvider, List.find?_eq_none]
      intro p hp
      rcases List.mem_cons.mp hp with rfl | hp
      · simp [h1]
      · rcases List.mem_cons.mp hp with rfl | hp
        · simp [h2]
        · simp at hp
    rw [managerCall, hfind]
    rfl

/-- Witness for C7: two providers, both with Open circuits; the manager
call raises `ServiceDegradationError` listing both provider ids. -/
theorem managerCall_all_open_witness :
    managerCall ⟨5, 60, 3, 30⟩
        [⟨"ollama", ⟨.opened, 0, 0, 10⟩⟩, ⟨"openai", ⟨.opened, 0, 0, 20⟩⟩]
        40 (fun _ => true)
      = .error ⟨["ollama", "openai"]⟩ :=
  (managerCall_all_open ⟨5, 60, 3, 30⟩
      [⟨"ollama", ⟨.opened, 0, 0, 10⟩⟩, ⟨"openai", ⟨.opened, 0, 0, 20⟩⟩]
      40 (fun _ => true) (by decide)).1

/-! ## SearchResultRanker -/

/-- Modelled from the spec: a `SearchHit` produced by the vector store:
fragment id, owning document id, text content, raw similarity score
(in integer milli-units, e.g. `820` for similarity `0.82`), source
metadata, and the owning document's creation time. -/
structure SearchHit where
  fragmentId : Nat
  documentId : Nat
  content : String
  score : Int
  documentName : String
  position : Nat
  docCreatedAt : Nat
deriving DecidableEq

/-- Modelled from the spec: the configurable ranking parameters of
`SearchResultRanker` (`backend/app/chat/rag_service.py`, only documented in
`RAG_ANSWER_IMPLEMENTATION_SUMMARY.md`): similarity-score threshold,
keyword/length/recency bonus weights, target content length with its
tolerance, recency cutoff, and the requested result limit.  All score
quantities are in the same integer milli-units as `SearchHit.score`. -/
structure RankOptions where
  scoreThreshold : Int
  keywordWeight : Int
  targetLength : Nat
  lengthTolerance : Nat
  lengthWeight : Int
  recencyCutoff : Nat
  recencyWeight : Int
  limit : Nat
deriving DecidableEq

/-- Normalized content used both for duplicate detection (the
normalized-content hash is modelled as the normalized content itself,
i.e. an injective hash) and for keyword matching. -/
def normalizeContent (s : String) : String :=
  s.toLower.trim

/-- The query's terms: whitespace-separated words of the normalized
query. -/
def queryTerms (q : String) : List String :=
  ((normalizeContent q).splitOn " ").filter (fun t => !(t == ""))

/-- The words of a fragment's normalized content. -/
def contentWords (c : String) : List String :=
  ((normalizeContent c).splitOn " ").filter (fun t => !(t == ""))

/-- Modelled from the spec: keyword-overlap bonus — the fraction of query
terms literally present in the fragment, scaled by `keywordWeight`. -/
def keywordOverlapBonus (opts : RankOptions) (q c : String) : Int :=
  let terms := queryTerms q
  if terms.length = 0 then 0
  else
    opts.keywordWeight *
      ((terms.filter (fun t => (contentWords c).contains t)).length : Int) /
      (terms.length : Int)

/-- Modelled from the spec: length-fit bonus — fragments whose content
length is within `lengthTolerance` of `targetLength` score higher than very
short or very long ones. -/
def lengthFitBonus (opts : RankOptions) (len : Nat) : Int :=
  if opts.targetLength ≤ len + opts.lengthTolerance ∧
      len ≤ opts.targetLength + opts.lengthTolerance then
    opts.lengthWeight
  else 0

/-- Modelled from the spec: recency bonus — fragments of documents created
at or after the recency cutoff score slightly higher. -/
def recencyBonusOf (opts : RankOptions) (createdAt : Nat) : Int :=
  if opts.recencyCutoff ≤ createdAt then opts.recencyWeight else 0

/-- Modelled from the spec: adjusted score = base similarity +
keyword-overlap bonus + length-fit bonus + recency bonus. -/
def adjustedScore (q : String) (opts : RankOptions) (h : SearchHit) : Int :=
  h.score + keywordOverlapBonus opts q h.content +
    lengthFitBonus opts h.content.length + recencyBonusOf opts h.docCreatedAt

/-- Step (1) of the ranker: drop hits below the similarity-score
threshold. -/
def thresholdFilter (opts : RankOptions) (hits : List SearchHit) : List SearchHit :=
  hits.filter (fun h => decide (opts.scoreThreshold ≤ h.score))

/-- Two hits are duplicates when their normalized-content hashes agree. -/
def sameContent (a b : SearchHit) : Bool :=
  normalizeContent a.content == normalizeContent b.content

/-- An indexed hit survives deduplication when every duplicate in the list
either scores strictly lower, or scores equally and does not precede it
(so exactly the earliest highest-scoring member of each duplicate class is
kept). -/
def keepBest (hits : List SearchHit) (p : Nat × SearchHit) : Bool :=
  hits.enum.all (fun jq =>
    !(sameContent jq.2 p.2) || decide (jq.2.score < p.2.score) ||
      (jq.2.score == p.2.score && decide (p.1 ≤ jq.1)))

/-- Step (2) of the ranker: deduplicate by normalized-content hash, keeping
the highest-scoring duplicate. -/
def dedupByContent (hits : List SearchHit) : List SearchHit :=
  (hits.enum.filter (keepBest hits)).map Prod.snd

/-- A hit together with its adjusted score. -/
structure ScoredHit where
  hit : SearchHit
  adjusted : Int
deriving DecidableEq

/-- Step (3) of the ranker: attach the adjusted score to each hit. -/
def scoreHits (q : String) (opts : RankOptions) (hits : List SearchHit) :
    List ScoredHit :=
  hits.map (fun h => ⟨h, adjustedScore q opts h⟩)

/-- The ranker's ordering: descending adjusted score, ties broken by
descending original similarity score, then by ascending fragment id for
determinism. -/
def shLe (a b : ScoredHit) : Prop :=
  b.adjusted < a.adjusted ∨
    (b.adjusted = a.adjusted ∧
      (b.hit.score < a.hit.score ∨
        (b.hit.score = a.hit.score ∧ a.hit.fragmentId ≤ b.hit.fragmentId)))

instance : DecidableRel shLe := fun a b => by
  unfold shLe
  infer_instance

instance : IsTotal ScoredHit shLe :=
  ⟨by intro a b; unfold shLe; omega⟩

instance : IsTrans ScoredHit shLe :=
  ⟨by intro a b c hab hbc; unfold shLe at hab hbc ⊢; omega⟩

/-- Modelled from the spec: a `RankedResult` — the hit, its adjusted score,
and its 1-based rank position. -/
structure RankedResult where
  hit : SearchHit
  adjusted : Int
  rank : Nat
deriving DecidableEq

/-- Assign 1-based rank positions in list order, starting at `i`. -/
def assignRanks : Nat → List ScoredHit → List RankedResult
  | _, [] => []
  | i, e :: es => ⟨e.hit, e.adjusted, i⟩ :: assignRanks (i + 1) es

/-- Modelled from the spec: `SearchResultRanker.rank(hits, rawQuery,
options)`: threshold-filter, deduplicate, score, sort descending by
adjusted score (ties by similarity then fragment id), truncate to the
requested limit, and assign rank positions. -/
def rank (hits : List SearchHit) (q : String) (opts : RankOptions) :
    List RankedResult :=
  assignRanks 1
    (((scoreHits q opts (dedupByContent (thresholdFilter opts hits))).insertionSort
        shLe).take opts.limit)

theorem dedup_sublist (hits : List SearchHit) :
    List.Sublist (dedupByContent hits) hits := by
  have h1 : List.Sublist ((hits.enum.filter (keepBest hits)).map Prod.snd)
      (hits.enum.map Prod.snd) :=
    List.Sublist.map _ (List.filter_sublist _)
  have h2 : hits.enum.map Prod.snd = hits := List.enumFrom_map_snd 0 hits
  rw [h2] at h1
  rw [dedupByContent]
  exact h1

theorem keepBest_iff (hits : List SearchHit) (i : Nat) (d : SearchHit) :
    keepBest hits (i, d) = true ↔
      ∀ j h', (j, h') ∈ hits.enum → sameContent h' d = true →
        (h'.score < d.score ∨ (h'.score = d.score ∧ i ≤ j)) := by
  rw [keepBest, List.all_eq_true]
  constructor
  · intro hall j h' hmem hsc
    have h := hall (j, h') hmem
    simp only [Bool.or_eq_true, Bool.not_eq_true', Bool.and_eq_true,
      decide_eq_true_eq, beq_iff_eq] at h
    rcases h with (h | h) | h
    · simp [h] at hsc
    · exact Or.inl h
    · exact Or.inr h
  · intro hspec p hp
    obtain ⟨j, h'⟩ := p
    simp only [Bool.or_eq_true, Bool.not_eq_true', Bool.and_eq_true,
      decide_eq_true_eq, beq_iff_eq]
    by_cases hsc : sameContent h' d = true
    · rcases hspec j h' hp hsc with h | h
      · exact Or.inl (Or.inr h)
      · exact Or.inr h
    · exact Or.inl (Or.inl (by simpa using hsc))

theorem mem_dedupByContent (hits : List SearchHit) (d : SearchHit) :
    d ∈ dedupByContent hits ↔
      ∃ i, (i, d) ∈ hits.enum ∧ keepBest hits (i, d) = true := by
  rw [dedupByContent]
  simp only [List.mem_map, List.mem_filter]
  constructor
  · rintro ⟨⟨i, d'⟩, ⟨hm, hk⟩, rfl⟩
    exact ⟨i, hm, hk⟩
  · rintro ⟨i, hm, hk⟩
    exact ⟨(i, d), ⟨hm, hk⟩, rfl⟩

theorem dedup_pairwise_content (hits : List SearchHit) :
    (dedupByContent hits).Pairwise (fun a b => ¬(sameContent a b = true)) := by
  rw [dedupByContent, List.pairwise_map]
  have h0 : hits.enum.Pairwise (fun p q : Nat × SearchHit => p.1 ≠ q.1) := by
    have hmn := List.nodup_enum_map_fst hits
    rwa [List.Nodup, List.pairwise_map] at hmn
  have hfst : (hits.enum.filter (keepBest hits)).Pairwise
      (fun p q : Nat × SearchHit => p.1 ≠ q.1) :=
    h0.sublist (List.filter_sublist _)
  refine hfst.imp_of_mem ?_
  intro p q hp hq hne
  obtain ⟨i, a⟩ := p
  obtain ⟨j, b⟩ := q
  have hpe : (i, a) ∈ hits.enum := (List.mem_filter.mp hp).1
  have hqe : (j, b) ∈ hits.enum := (List.mem_filter.mp hq).1
  have hkp : keepBest hits (i, a) = true := (List.mem_filter.mp hp).2
  have hkq : keepBest hits (j, b) = true := (List.mem_filter.mp hq).2
  intro hsame
  have hsame' : sameContent b a = true := by
    simp only [sameContent, beq_iff_eq] at hsame ⊢
    exact hsame.symm
  have h1 := (keepBest_iff hits i a).mp hkp j b hqe hsame'
  have h2 := (keepBest_iff hits j b).mp hkq i a hpe hsame
  simp only at hne
  omega

theorem dedup_max (hits : List SearchHit) (d : SearchHit)
    (hd : d ∈ dedupByContent hits) (h' : SearchHit) (hm : h' ∈ hits)
    (hsc : sameContent h' d = true) : h'.score ≤ d.score := by
  obtain ⟨i, hmem, hk⟩ := (mem_dedupByContent hits d).mp hd
  obtain ⟨j, hj, hget⟩ := List.getElem_of_mem hm
  have hje : (j, h') ∈ hits.enum := by
    rw [List.mk_mem_enum_iff_getElem?]
    simp [List.getElem?_eq_getElem hj, hget]
  have := (keepBest_iff hits i d).mp hk j h' hje hsc
  omega

theorem exists_max_key {α : Type} (k : α → Int) (l : List α) (hne : l ≠ []) :
    ∃ m ∈ l, ∀ a ∈ l, k a ≤ k m := by
  induction l with
  | nil => exact absurd rfl hne
  | cons x t ih =>
      cases t with
      | nil =>
          refine ⟨x, by simp, ?_⟩
          intro a ha
          have : a = x := by simpa using ha
          subst this
          exact le_refl _
      | cons y s =>
          obtain ⟨m, hm, hmax⟩ := ih (by simp)
          by_cases hcmp : k m ≤ k x
          · refine ⟨x, by simp, ?_⟩
            intro a ha
            rcases List.mem_cons.mp ha with rfl | ha
            · exact le_refl _
            · exact le_trans (hmax a ha) hcmp
          · refine ⟨m, List.mem_cons_of_mem _ hm, ?_⟩
            intro a ha
            rcases List.mem_cons.mp ha with rfl | ha
            · omega
            · exact hmax a ha

theorem dedup_represents (hits : List SearchHit) (h : SearchHit)
    (hm : h ∈ hits) :
    ∃ d ∈ dedupByContent hits, sameContent d h = true ∧ h.score ≤ d.score := by
  obtain ⟨i0, hi0, hget0⟩ := List.getElem_of_mem hm
  have hmemE : (i0, h) ∈ hits.enum := by
    rw [List.mk_mem_enum_iff_getElem?]
    simp [List.getElem?_eq_getElem hi0, hget0]
  have hmemC : (i0, h) ∈ hits.enum.filter (fun p => sameContent p.2 h) :=
    List.mem_filter.mpr ⟨hmemE, by simp [sameContent]⟩
  obtain ⟨m1, hm1, hmax1⟩ :=
    exists_max_key (fun p : Nat × SearchHit => p.2.score)
      (hits.enum.filter (fun p => sameContent p.2 h))
      (List.ne_nil_of_mem hmemC)
  have hm1C2 : m1 ∈ (hits.enum.filter (fun p => sameContent p.2 h)).filter
      (fun p => p.2.score == m1.2.score) :=
    List.mem_filter.mpr ⟨hm1, by simp⟩
  obtain ⟨m2, hm2, hmax2⟩ :=
    exists_max_key (fun p : Nat × SearchHit => -(p.1 : Int))
      ((hits.enum.filter (fun p => sameContent p.2 h)).filter
        (fun p => p.2.score == m1.2.score))
      (List.ne_nil_of_mem hm1C2)
  obtain ⟨i2, d2⟩ := m2
  have hm2C : (i2, d2) ∈ hits.enum.filter (fun p => sameContent p.2 h) :=
    (List.mem_filter.mp hm2).1
  have hm2score : d2.score = m1.2.score := by
    have := (List.mem_filter.mp hm2).2
    simpa using this
  have hm2enum : (i2, d2) ∈ hits.enum := (List.mem_filter.mp hm2C).1
  have hm2same : sameContent d2 h = true := by
    have := (List.mem_filter.mp hm2C).2
    simpa using this
  have hkeep : keepBest hits (i2, d2) = true := by
    rw [keepBest_iff]
    intro j h' hjm hsame'
    have hsame'' : sameContent h' h = true := by
      simp only [sameContent, beq_iff_eq] at hsame' hm2same ⊢
      rw [hsame', hm2same]
    have hh'C : (j, h') ∈ hits.enum.filter (fun p => sameContent p.2 h) :=
      List.mem_filter.mpr ⟨hjm, by simpa using hsame''⟩
    have hle : h'.score ≤ m1.2.score := hmax1 (j, h') hh'C
    by_cases heq : h'.score = d2.score
    · right
      refine ⟨heq, ?_⟩
      have hh'C2 : (j, h') ∈ (hits.enum.filter (fun p => sameContent p.2 h)).filter
          (fun p => p.2.score == m1.2.score) :=
        List.mem_filter.mpr ⟨hh'C, by simp [heq, hm2score]⟩
      have := hmax2 (j, h') hh'C2
      simp only at this
      omega
    · left
      omega
  refine ⟨d2, (mem_dedupByContent hits d2).mpr ⟨i2, hm2enum, hkeep⟩, hm2same, ?_⟩
  have := hmax1 (i0, h) hmemC
  simp only at this
  omega

theorem scoreHits_map_hit (q : String) (opts : RankOptions)
    (l : List SearchHit) : (scoreHits q opts l).map ScoredHit.hit = l := by
  induction l with
  | nil => rfl
  | cons x t ih => simp [scoreHits] at ih ⊢; exact ih

theorem mem_scoreHits (q : String) (opts : RankOptions) (l : List SearchHit)
    (e : ScoredHit) :
    e ∈ scoreHits q opts l ↔
      ∃ h ∈ l, e = ⟨h, adjustedScore q opts h⟩ := by
  simp only [scoreHits, List.mem_map]
  constructor
  · rintro ⟨h, hm, rfl⟩; exact ⟨h, hm, rfl⟩
  · rintro ⟨h, hm, rfl⟩; exact ⟨h, hm, rfl⟩

theorem assignRanks_map_rank :
    ∀ (i : Nat) (l : List ScoredHit),
      (assignRanks i l).map RankedResult.rank = List.range' i l.length := by
  intro i l
  induction l generalizing i with
  | nil => rfl
  | cons e es ih =>
      rw [assignRanks, List.map_cons, ih (i + 1), List.length_cons,
        List.range'_succ]

theorem assignRanks_map_hit :
    ∀ (i : Nat) (l : List ScoredHit),
      (assignRanks i l).map RankedResult.hit = l.map ScoredHit.hit := by
  intro i l
  induction l generalizing i with
  | nil => rfl
  | cons e es ih => rw [assignRanks, List.map_cons, ih (i + 1), List.map_cons]

theorem mem_assignRanks :
    ∀ (i : Nat) (l : List ScoredHit) (r : RankedResult),
      r ∈ assignRanks i l →
        ∃ e ∈ l, ∃ j, r = ⟨e.hit, e.adjusted, j⟩ := by
  intro i l
  induction l generalizing i with
  | nil => intro r hr; simp [assignRanks] at hr
  | cons e es ih =>
      intro r hr
      rw [assignRanks, List.mem_cons] at hr
      rcases hr with rfl | hr
      · exact ⟨e, List.mem_cons_self e es, i, rfl⟩
      · obtain ⟨a, ha, j, rfl⟩ := ih (i + 1) r hr
        exact ⟨a, List.mem_cons_of_mem e ha, j, rfl⟩

theorem assignRanks_pairwise (R : ScoredHit → ScoredHit → Prop)
    (S : RankedResult → RankedResult → Prop)
    (hRS : ∀ a b i j, R a b →
      S ⟨a.hit, a.adjusted, i⟩ ⟨b.hit, b.adjusted, j⟩) :
    ∀ (i : Nat) (l : List ScoredHit), l.Pairwise R →
      (assignRanks i l).Pairwise S := by
  intro i l
  induction l generalizing i with
  | nil => intro _; simp [assignRanks]
  | cons e es ih =>
      intro hp
      obtain ⟨he, hes⟩ := List.pairwise_cons.mp hp
      rw [assignRanks, List.pairwise_cons]
      constructor
      · intro r hr
        obtain ⟨a, ha, j, rfl⟩ := mem_assignRanks (i + 1) es r hr
        exact hRS e a i j (he a ha)
      · exact ih (i + 1) hes

theorem mem_rank_shape (hits : List SearchHit) (q : String)
    (opts : RankOptions) (r : RankedResult) (hr : r ∈ rank hits q opts) :
    r.hit ∈ dedupByContent (thresholdFilter opts hits) ∧
      r.adjusted = adjustedScore q opts r.hit := by
  obtain ⟨e, he, j, rfl⟩ := mem_assignRanks 1 _ r hr
  have he1 : e ∈ (scoreHits q opts
      (dedupByContent (thresholdFilter opts hits))).insertionSort shLe :=
    List.mem_of_mem_take he
  have he2 : e ∈ scoreHits q opts (dedupByContent (thresholdFilter opts hits)) :=
    (List.perm_insertionSort shLe _).mem_iff.mp he1
  obtain ⟨h, hm, rfl⟩ := (mem_scoreHits q opts _ e).mp he2
  exact ⟨hm, rfl⟩

theorem scoreHits_map_fragId (q : String) (opts : RankOptions) :
    ∀ l : List SearchHit,
      (scoreHits q opts l).map (fun e => e.hit.fragmentId)
        = l.map SearchHit.fragmentId := by
  intro l
  induction l with
  | nil => rfl
  | cons x t ih => simp only [scoreHits, List.map_cons] at ih ⊢; rw [ih]

theorem assignRanks_map_fragId :
    ∀ (i : Nat) (l : List ScoredHit),
      (assignRanks i l).map (fun r => r.hit.fragmentId)
        = l.map (fun e => e.hit.fragmentId) := by
  intro i l
  induction l generalizing i with
  | nil => rfl
  | cons e es ih => rw [assignRanks, List.map_cons, ih (i + 1), List.map_cons]

theorem assignRanks_length :
    ∀ (i : Nat) (l : List ScoredHit),
      (assignRanks i l).length = l.length := by
  intro i l
  induction l generalizing i with
  | nil => rfl
  | cons e es ih => rw [assignRanks, List.length_cons, ih (i + 1), List.length_cons]

/-- C2: `SearchResultRanker.rank` (i) keeps only hits at or above the
similarity threshold, all drawn from the input; (ii) returns
pairwise-distinct normalized contents, each surviving entry scoring at
least as high as every above-threshold duplicate of it, while before
truncation every above-threshold hit's duplicate class is represented by a
highest-scoring member; (iii) carries
`adjusted = base similarity + keyword-overlap bonus + length-fit bonus +
recency bonus` on every entry; (iv) is sorted by non-increasing adjusted
score with ties broken by original similarity then ascending fragment id,
and assigns rank positions 1, 2, …; and (v) is truncated to the requested
limit. -/
theorem rank_spec (hits : List SearchHit) (q : String) (opts : RankOptions) :
    (∀ r ∈ rank hits q opts, opts.scoreThreshold ≤ r.hit.score) ∧
    (∀ r ∈ rank hits q opts, r.hit ∈ hits) ∧
    ((rank hits q opts).Pairwise
      (fun a b => ¬(sameContent a.hit b.hit = true))) ∧
    (∀ r ∈ rank hits q opts, ∀ h' ∈ hits, opts.scoreThreshold ≤ h'.score →
      sameContent h' r.hit = true → h'.score ≤ r.hit.score) ∧
    (∀ h ∈ hits, opts.scoreThreshold ≤ h.score →
      ∃ d ∈ dedupByContent (thresholdFilter opts hits),
        sameContent d h = true ∧ h.score ≤ d.score) ∧
    (∀ r ∈ rank hits q opts, r.adjusted = adjustedScore q opts r.hit) ∧
    ((rank hits q opts).Pairwise (fun a b =>
      b.adjusted ≤ a.adjusted ∧
      (b.adjusted = a.adjusted → b.hit.score ≤ a.hit.score) ∧
      (b.adjusted = a.adjusted → b.hit.score = a.hit.score →
        a.hit.fragmentId ≤ b.hit.fragmentId))) ∧
    ((rank hits q opts).map RankedResult.rank
      = List.range' 1 (rank hits q opts).length) ∧
    (rank hits q opts).length ≤ opts.limit := by
  have hmemD : ∀ r ∈ rank hits q opts,
      r.hit ∈ dedupByContent (thresholdFilter opts hits) :=
    fun r hr => (mem_rank_shape hits q opts r hr).1
  have hmemF : ∀ r ∈ rank hits q opts, r.hit ∈ thresholdFilter opts hits :=
    fun r hr => (dedup_sublist _).subset (hmemD r hr)
  refine ⟨?_, ?_, ?_, ?_, ?_, ?_, ?_, ?_, ?_⟩
  · intro r hr
    have := (List.mem_filter.mp (hmemF r hr)).2
    simpa using this
  · intro r hr
    exact (List.filter_sublist _).subset (hmemF r hr)
  · have hD := dedup_pairwise_content (thresholdFilter opts hits)
    have hS : (scoreHits q opts (dedupByContent (thresholdFilter opts hits))).Pairwise
        (fun e f : ScoredHit => ¬(sameContent e.hit f.hit = true)) :=
      List.pairwise_map.mpr hD
    have hsym : ∀ {e f : ScoredHit}, ¬(sameContent e.hit f.hit = true) →
        ¬(sameContent f.hit e.hit = true) := by
      intro e f hne hc
      refine hne ?_
      simp only [sameContent, beq_iff_eq] at hc ⊢
      exact hc.symm
    have hL := ((List.perm_insertionSort shLe _).pairwise_iff hsym).mpr hS
    have hT := hL.sublist (List.take_sublist opts.limit _)
    exact assignRanks_pairwise _ _ (fun a b i j h => h) 1 _ hT
  · intro r hr h' hm' hth hsc
    exact dedup_max (thresholdFilter opts hits) r.hit (hmemD r hr) h'
      (List.mem_filter.mpr ⟨hm', by simpa using hth⟩) hsc
  · intro h hm hth
    exact dedup_represents (thresholdFilter opts hits) h
      (List.mem_filter.mpr ⟨hm, by simpa using hth⟩)
  · intro r hr
    exact (mem_rank_shape hits q opts r hr).2
  · have hL : ((scoreHits q opts
        (dedupByContent (thresholdFilter opts hits))).insertionSort shLe).Pairwise
        shLe := List.sorted_insertionSort shLe _
    have hT := hL.sublist (List.take_sublist opts.limit _)
    refine assignRanks_pairwise shLe _ ?_ 1 _ hT
    intro a b i j h
    unfold shLe at h
    have hred : b.adjusted ≤ a.adjusted ∧
        (b.adjusted = a.adjusted → b.hit.score ≤ a.hit.score) ∧
        (b.adjusted = a.adjusted → b.hit.score = a.hit.score →
          a.hit.fragmentId ≤ b.hit.fragmentId) :=
      ⟨by omega, fun h1 => by omega, fun h1 h2 => by omega⟩
    exact hred
  · rw [rank, assignRanks_map_rank, assignRanks_length]
  · rw [rank, assignRanks_length]
    exact List.length_take_le _ _

/-- C3 (ranker part): with pairwise-distinct fragment ids in the input (as
delivered by the vector store), the ranked output never contains two
entries with the same fragment id. -/
theorem rank_fragIds_nodup (hits : List SearchHit) (q : String)
    (opts : RankOptions)
    (h : (hits.map SearchHit.fragmentId).Nodup) :
    ((rank hits q opts).map (fun r => r.hit.fragmentId)).Nodup := by
  have h1 : ((thresholdFilter opts hits).map SearchHit.fragmentId).Nodup :=
    h.sublist (List.Sublist.map _ (List.filter_sublist _))
  have h2 : ((dedupByContent (thresholdFilter opts hits)).map
      SearchHit.fragmentId).Nodup :=
    h1.sublist (List.Sublist.map _ (dedup_sublist _))
  have h3 : ((scoreHits q opts (dedupByContent (thresholdFilter opts hits))).map
      (fun e => e.hit.fragmentId)).Nodup := by
    rw [scoreHits_map_fragId]
    exact h2
  have h4 : (((scoreHits q opts
      (dedupByContent (thresholdFilter opts hits))).insertionSort shLe).map
      (fun e => e.hit.fragmentId)).Nodup :=
    (((List.perm_insertionSort shLe _).map
      (fun e : ScoredHit => e.hit.fragmentId)).nodup_iff).mpr h3
  have h5 : ((((scoreHits q opts
      (dedupByContent (thresholdFilter opts hits))).insertionSort shLe).take
        opts.limit).map (fun e => e.hit.fragmentId)).Nodup :=
    h4.sublist (List.Sublist.map _ (List.take_sublist _ _))
  rw [rank, assignRanks_map_fragId]
  exact h5

/-- Witness for C2: the ranked output of a concrete one-hit call respects
the requested limit (the scenario of the spec: one document scoring 0.82
against a 0.7 threshold, limit 5). -/
theorem rank_spec_witness :
    (rank [⟨1, 1, "refund policy details", 820, "doc", 0, 5⟩] "refund policy"
      ⟨700, 100, 200, 100, 50, 0, 20, 5⟩).length ≤ 5 :=
  (rank_spec [⟨1, 1, "refund policy details", 820, "doc", 0, 5⟩] "refund policy"
    ⟨700, 100, 200, 100, 50, 0, 20, 5⟩).2.2.2.2.2.2.2.2

/-! ## SearchCache and RAGQueryService -/

/-- Modelled from the spec: the optional search filters (document
type/date/size) of a query. -/
structure SearchFilters where
  docType : Option String
  dateFrom : Option Nat
  dateTo : Option Nat
  maxSize : Option Nat
deriving DecidableEq

/-- Modelled from the spec: the query normalization of `QueryVectorizer`:
whitespace is normalized (trimmed) and the text truncated to a maximum
length to bound cost. -/
def normalizeQuery (q : String) : String :=
  q.trim.take 512

/-- Modelled from the spec: the cache key — a stable hash of (owner id,
normalized query text, serialized filter set); the hash is modelled
injectively as the triple itself. -/
structure CacheKey where
  ownerId : Nat
  normalizedQuery : String
  filters : SearchFilters
deriving DecidableEq

/-- Build the cache key for a search call. -/
def mkCacheKey (ownerId : Nat) (q : String) (filters : SearchFilters) : CacheKey :=
  ⟨ownerId, normalizeQuery q, filters⟩

/-- Modelled from the spec: a `CacheEntry` — the ordered ranked results
plus the expiry instant (`created + ttl`). -/
structure CacheEntry where
  value : List RankedResult
  expiresAt : Nat
deriving DecidableEq

/-- Modelled from the spec: the state a `RAGQueryService` call touches —
the cache contents (newest entry first) and a counter of vector-store
queries performed (to express "no second vector-store call"). -/
structure RAGState where
  cache : List (CacheKey × CacheEntry)
  vsQueries : Nat
deriving DecidableEq

/-- Modelled from the spec: `SearchCache.get` — the entry for the key, if
present and not yet expired at `now`; otherwise a miss. -/
def cacheGet (st : RAGState) (k : CacheKey) (now : Nat) :
    Option (List RankedResult) :=
  match st.cache.find? (fun p => p.1 == k) with
  | some p => if now < p.2.expiresAt then some p.2.value else none
  | none => none

/-- Modelled from the spec: `RAGQueryService.search(ownerId, rawQuery,
filters, limit)`: normalize, look up the cache and return immediately on a
valid hit; on a miss query the vector store (restricted to the owner's
documents — the vector store is abstracted as a function of owner,
normalized query and filters), rank, cache with TTL, and return. -/
def search (vstore : Nat → String → SearchFilters → List SearchHit)
    (opts : RankOptions) (ttl : Nat) (ownerId : Nat) (q : String)
    (filters : SearchFilters) (now : Nat) (st : RAGState) :
    List RankedResult × RAGState :=
  match cacheGet st (mkCacheKey ownerId q filters) now with
  | some v => (v, st)
  | none =>
      let results := rank (vstore ownerId (normalizeQuery q) filters) q opts
      (results,
       ⟨(mkCacheKey ownerId q filters, ⟨results, now + ttl⟩) :: st.cache,
        st.vsQueries + 1⟩)

theorem cacheGet_cons_self (key : CacheKey) (e : CacheEntry)
    (rest : List (CacheKey × CacheEntry)) (vs now : Nat) :
    cacheGet ⟨(key, e) :: rest, vs⟩ key now
      = if now < e.expiresAt then some e.value else none := by
  unfold cacheGet
  rw [List.find?_cons_of_pos _ (by simp)]

theorem cacheGet_agnostic (st : RAGState) (k : CacheKey) (t t' : Nat)
    (a b : List RankedResult) (ha : cacheGet st k t = some a)
    (hb : cacheGet st k t' = some b) : a = b := by
  unfold cacheGet at ha hb
  cases hf : st.cache.find? (fun p => p.1 == k) with
  | none => rw [hf] at ha; cases ha
  | some p =>
      simp only [hf] at ha hb
      by_cases h1 : t < p.2.expiresAt
      · by_cases h2 : t' < p.2.expiresAt
        · rw [if_pos h1] at ha
          rw [if_pos h2] at hb
          rw [← Option.some_inj.mp ha, ← Option.some_inj.mp hb]
        · rw [if_neg h2] at hb; cases hb
      · rw [if_neg h1] at ha; cases ha

/-- C4: `RAGQueryService.search` is idempotent under a valid cache entry.
After a first call that missed the cache, the entry is valid at any
`now2 < now1 + ttl`; and whenever the entry for the key is valid after the
first call, a second call with identical arguments returns exactly the
first call's ordered results, leaves the state untouched, and performs no
vector-store query (the query counter is unchanged).  The cache key is the
stable hash of (owner id, normalized query text, serialized filter set),
so any query with the same normalization shares the key. -/
theorem search_idempotent (vstore : Nat → String → SearchFilters → List SearchHit)
    (opts : RankOptions) (ttl : Nat) (ownerId : Nat) (q : String)
    (filters : SearchFilters) (now1 now2 : Nat) (st : RAGState) :
    (cacheGet st (mkCacheKey ownerId q filters) now1 = none →
      now2 < now1 + ttl →
      ∃ v, cacheGet (search vstore opts ttl ownerId q filters now1 st).2
        (mkCacheKey ownerId q filters) now2 = some v) ∧
    ((∃ v, cacheGet (search vstore opts ttl ownerId q filters now1 st).2
        (mkCacheKey ownerId q filters) now2 = some v) →
      search vstore opts ttl ownerId q filters now2
          (search vstore opts ttl ownerId q filters now1 st).2
        = ((search vstore opts ttl ownerId q filters now1 st).1,
           (search vstore opts ttl ownerId q filters now1 st).2) ∧
      (search vstore opts ttl ownerId q filters now2
          (search vstore opts ttl ownerId q filters now1 st).2).2.vsQueries
        = (search vstore opts ttl ownerId q filters now1 st).2.vsQueries) ∧
    (∀ q', normalizeQuery q' = normalizeQuery q →
      mkCacheKey ownerId q' filters = mkCacheKey ownerId q filters) := by
  refine ⟨?_, ?_, ?_⟩
  · intro hmiss hlt
    refine ⟨rank (vstore ownerId (normalizeQuery q) filters) q opts, ?_⟩
    simp only [search, hmiss]
    rw [cacheGet_cons_self, if_pos hlt]
  · intro hv
    obtain ⟨v, hv⟩ := hv
    cases h1 : cacheGet st (mkCacheKey ownerId q filters) now1 with
    | some w =>
        have hfst : search vstore opts ttl ownerId q filters now1 st = (w, st) := by
          simp only [search, h1]
        rw [hfst] at hv ⊢
        have hsnd : search vstore opts ttl ownerId q filters now2 st = (v, st) := by
          simp only [search, hv]
        rw [hsnd]
        have : v = w := cacheGet_agnostic st _ now2 now1 v w hv h1
        rw [this]
        exact ⟨rfl, rfl⟩
    | none =>
        have hfst : search vstore opts ttl ownerId q filters now1 st
            = (rank (vstore ownerId (normalizeQuery q) filters) q opts,
               ⟨(mkCacheKey ownerId q filters,
                 ⟨rank (vstore ownerId (normalizeQuery q) filters) q opts,
                  now1 + ttl⟩) :: st.cache,
                st.vsQueries + 1⟩) := by
          simp only [search, h1]
        rw [hfst] at hv ⊢
        rw [cacheGet_cons_self] at hv
        by_cases hlt : now2 < now1 + ttl
        · have hcg : cacheGet (⟨(mkCacheKey ownerId q filters,
              ⟨rank (vstore ownerId (normalizeQuery q) filters) q opts,
               now1 + ttl⟩) :: st.cache, st.vsQueries + 1⟩ : RAGState)
              (mkCacheKey ownerId q filters) now2
              = some (rank (vstore ownerId (normalizeQuery q) filters) q opts) := by
            rw [cacheGet_cons_self, if_pos hlt]
          constructor
          · simp only [search, hcg]
          · simp only [search, hcg]
        · rw [if_neg hlt] at hv
          cases hv
  · intro q' hq
    rw [mkCacheKey, mkCacheKey, hq]

/-- Witness for C4: with an empty cache, a first call at time 0 misses and
installs the entry; the theorem then yields a valid entry at time 10
(TTL 300), and the second call at time 10 returns exactly the first call's
results and state, with the vector-store query counter unchanged. -/
theorem search_idempotent_witness :
    search (fun _ _ _ => []) ⟨700, 100, 200, 100, 50, 0, 20, 5⟩ 300 1 "q"
        ⟨none, none, none, none⟩ 10
        ((search (fun _ _ _ => []) ⟨700, 100, 200, 100, 50, 0, 20, 5⟩ 300 1 "q"
          ⟨none, none, none, none⟩ 0 ⟨[], 0⟩).2)
      = ((search (fun _ _ _ => []) ⟨700, 100, 200, 100, 50, 0, 20, 5⟩ 300 1 "q"
          ⟨none, none, none, none⟩ 0 ⟨[], 0⟩).1,
         (search (fun _ _ _ => []) ⟨700, 100, 200, 100, 50, 0, 20, 5⟩ 300 1 "q"
          ⟨none, none, none, none⟩ 0 ⟨[], 0⟩).2) := by
  have h := search_idempotent (fun _ _ _ => []) ⟨700, 100, 200, 100, 50, 0, 20, 5⟩
    300 1 "q" ⟨none, none, none, none⟩ 0 10 ⟨[], 0⟩
  exact (h.2.1 (h.1 rfl (by omega))).1

/-- Well-formedness of the cache for duplicate-free results: every cached
value has pairwise-distinct fragment ids. -/
def CacheWF (st : RAGState) : Prop :=
  ∀ k e, (k, e) ∈ st.cache →
    ((e.value.map (fun r => r.hit.fragmentId)).Nodup)

/-- C3: a `RankedResult` set returned to a caller never contains two
entries with the same fragment id: this holds for every direct
`SearchResultRanker.rank` output (given pairwise-distinct fragment ids in
the vector-store hits, as the store guarantees), and for every
`RAGQueryService.search` result — cached or freshly ranked — as long as
every cached value was itself well-formed; the search also preserves that
cache invariant. -/
theorem rankedResults_fragIds_nodup
    (vstore : Nat → String → SearchFilters → List SearchHit)
    (opts : RankOptions) (ttl : Nat) (ownerId : Nat) (q : String)
    (filters : SearchFilters) (now : Nat) (st : RAGState)
    (hv : ∀ o nq f, ((vstore o nq f).map SearchHit.fragmentId).Nodup)
    (hwf : CacheWF st) :
    (∀ (hits : List SearchHit) (qq : String) (oo : RankOptions),
      (hits.map SearchHit.fragmentId).Nodup →
      ((rank hits qq oo).map (fun r => r.hit.fragmentId)).Nodup) ∧
    (((search vstore opts ttl ownerId q filters now st).1.map
      (fun r => r.hit.fragmentId)).Nodup) ∧
    CacheWF (search vstore opts ttl ownerId q filters now st).2 := by
  refine ⟨fun hits qq oo hnd => rank_fragIds_nodup hits qq oo hnd, ?_, ?_⟩
  · cases h1 : cacheGet st (mkCacheKey ownerId q filters) now with
    | some w =>
        have hfst : (search vstore opts ttl ownerId q filters now st).1 = w := by
          simp only [search, h1]
        rw [hfst]
        unfold cacheGet at h1
        cases hf : st.cache.find? (fun p => p.1 == mkCacheKey ownerId q filters) with
        | none => rw [hf] at h1; cases h1
        | some p =>
            simp only [hf] at h1
            by_cases hexp : now < p.2.expiresAt
            · rw [if_pos hexp] at h1
              have hw : w = p.2.value := (Option.some_inj.mp h1).symm
              subst hw
              have hpmem : p ∈ st.cache := List.mem_of_find?_eq_some hf
              exact hwf p.1 p.2 (by rwa [Prod.mk.eta])
            · rw [if_neg hexp] at h1; cases h1
    | none =>
        have hfst : (search vstore opts ttl ownerId q filters now st).1
            = rank (vstore ownerId (normalizeQuery q) filters) q opts := by
          simp only [search, h1]
        rw [hfst]
        exact rank_fragIds_nodup _ q opts (hv ownerId (normalizeQuery q) filters)
  · cases h1 : cacheGet st (mkCacheKey ownerId q filters) now with
    | some w =>
        have hfst : (search vstore opts ttl ownerId q filters now st).2 = st := by
          simp only [search, h1]
        rw [hfst]
        exact hwf
    | none =>
        have hfst : (search vstore opts ttl ownerId q filters now st).2
            = ⟨(mkCacheKey ownerId q filters,
                ⟨rank (vstore ownerId (normalizeQuery q) filters) q opts,
                 now + ttl⟩) :: st.cache, st.vsQueries + 1⟩ := by
          simp only [search, h1]
        rw [hfst]
        intro k e hke
        rcases List.mem_cons.mp hke with heq | hke'
        · have he : e = ⟨rank (vstore ownerId (normalizeQuery q) filters) q opts,
              now + ttl⟩ := congrArg Prod.snd heq
          rw [he]
          exact rank_fragIds_nodup _ q opts (hv ownerId (normalizeQuery q) filters)
        · exact hwf k e hke'

/-- Witness for C3: a single-hit vector store with distinct fragment ids
and an empty, trivially well-formed cache; both the ranked search result
and the updated cache satisfy the no-duplicate-fragment-id property. -/
theorem rankedResults_fragIds_nodup_witness :
    (((search (fun _ _ _ => [⟨1, 1, "c", 820, "doc", 0, 5⟩])
        ⟨700, 100, 200, 100, 50, 0, 20, 5⟩ 300 1 "refund policy"
        ⟨none, none, none, none⟩ 0 ⟨[], 0⟩).1.map
      (fun r => r.hit.fragmentId)).Nodup) :=
  (rankedResults_fragIds_nodup (fun _ _ _ => [⟨1, 1, "c", 820, "doc", 0, 5⟩])
    ⟨700, 100, 200, 100, 50, 0, 20, 5⟩ 300 1 "refund policy"
    ⟨none, none, none, none⟩ 0 ⟨[], 0⟩
    (fun _ _ _ => by simp)
    (fun k e h => by simp at h)).2.1

/-! ## AnswerService (RAGAnswerService, PromptTemplate, SourceExtractor) -/

/-- Modelled from the spec: one citation of an `AnswerResult` — fragment
id, document id/name and relevance score of the cited fragment. -/
structure Citation where
  fragmentId : Nat
  documentId : Nat
  documentName : String
  score : Int
deriving DecidableEq

/-- Modelled from the spec: the four prompt templates of `PromptTemplate`:
question + ranked context, the no-context template (which tells the model
no relevant material was found and instructs it to say so rather than
hallucinate), and the two conversation variants splicing in recent
turns. -/
inductive TemplateKind where
  | withContext
  | noContext
  | convWithContext
  | convNoContext
deriving DecidableEq

/-- Whether a template is one of the two no-context templates. -/
def TemplateKind.isNoContext : TemplateKind → Bool
  | .noContext => true
  | .convNoContext => true
  | _ => false

/-- Modelled from the spec: prompt construction chooses the template from
whether ranked context exists and whether conversation history is
spliced in. -/
def chooseTemplate (results : List RankedResult)
    (history : List ConversationTurn) : TemplateKind :=
  if results.isEmpty then
    if history.isEmpty then .noContext else .convNoContext
  else
    if history.isEmpty then .withContext else .convWithContext

/-- The citation derived from a ranked context fragment. -/
def citationOf (r : RankedResult) : Citation :=
  ⟨r.hit.fragmentId, r.hit.documentId, r.hit.documentName, r.hit.score⟩

/-- Modelled from the spec: `SourceExtractor` — context fragments carry the
numeric markers `[1], [2], …` tied to their position in the ranked list;
the generated text is abstracted to the list of numeric citation markers
it contains; every found in-range marker is mapped back to its fragment,
and if the model cited nothing explicitly, every fragment that was placed
in the prompt is cited instead. -/
def extractSources (results : List RankedResult) (markers : List Nat) :
    List Citation :=
  let found := (results.enum.filter (fun p => markers.contains (p.1 + 1))).map
    (fun p => citationOf p.2)
  if found.isEmpty then results.map citationOf else found

/-- Modelled from the spec: an `AnswerResult` — the template the prompt was
built from, the generated text (abstracted to its citation markers) and
the ordered citations.  The quality report and latency of the full
`AnswerResult` are not touched by the claims and are omitted. -/
structure AnswerResult where
  template : TemplateKind
  markers : List Nat
  citations : List Citation
deriving DecidableEq

/-- Modelled from the spec: `AnswerService.answer` — choose the template
from the ranked search results and optional history, generate (the
generator is abstracted as a function from the prompt's template to the
markers contained in the generated text), and extract citations. -/
def answer (results : List RankedResult) (history : List ConversationTurn)
    (gen : TemplateKind → List Nat) : AnswerResult :=
  let tpl := chooseTemplate results history
  let markers := gen tpl
  ⟨tpl, markers, extractSources results markers⟩

/-- C5: for every query whose vector-store result is empty,
`AnswerService.answer` builds the prompt from a no-context template and the
returned `AnswerResult` carries no citations — whatever the model
generates. -/
theorem answer_no_context (results : List RankedResult)
    (history : List ConversationTurn) (gen : TemplateKind → List Nat)
    (h : results = []) :
    (answer results history gen).template.isNoContext = true ∧
    (answer results history gen).citations = [] := by
  subst h
  constructor
  · show (chooseTemplate [] history).isNoContext = true
    rw [chooseTemplate]
    simp only [List.isEmpty_nil, if_true]
    cases history <;> simp [TemplateKind.isNoContext]
  · show extractSources [] (gen (chooseTemplate [] history)) = []
    rw [extractSources]
    simp

/-- Witness for C5: with an empty result set and a model that even emits a
marker, the answer uses the no-context template and cites nothing. -/
theorem answer_no_context_witness :
    (answer [] [] (fun _ => [1])).template.isNoContext = true ∧
    (answer [] [] (fun _ => [1])).citations = [] :=
  answer_no_context [] [] (fun _ => [1]) rfl

/-- C6: for every answer generated with at least one context fragment in
the prompt, (i) if the generated text contains no citation marker then the
citation list contains exactly every fragment that was placed in the
prompt; (ii) the answer is never uncited; and (iii) every citation
references a fragment of the `RankedResult` set that produced the
answer. -/
theorem answer_citations (results : List RankedResult)
    (history : List ConversationTurn) (gen : TemplateKind → List Nat)
    (hne : results ≠ []) :
    (gen (chooseTemplate results history) = [] →
      (answer results history gen).citations = results.map citationOf) ∧
    (answer results history gen).citations ≠ [] ∧
    (∀ c ∈ (answer results history gen).citations,
      ∃ r ∈ results, c = citationOf r) := by
  refine ⟨?_, ?_, ?_⟩
  · intro hmk
    show extractSources results (gen (chooseTemplate results history))
      = results.map citationOf
    rw [hmk, extractSources]
    simp
  · show extractSources results (gen (chooseTemplate results history)) ≠ []
    rw [extractSources]
    split
    · simp [hne]
    · rename_i hfound
      intro hcontra
      rw [hcontra] at hfound
      simp at hfound
  · intro c hc
    replace hc : c ∈ extractSources results (gen (chooseTemplate results history)) := hc
    rw [extractSources] at hc
    split at hc
    · obtain ⟨r, hr, rfl⟩ := List.mem_map.mp hc
      exact ⟨r, hr, rfl⟩
    · obtain ⟨p, hp, rfl⟩ := List.mem_map.mp (by exact hc)
      have hpe : p ∈ results.enum := (List.mem_filter.mp hp).1
      have : p.2 ∈ results := by
        have := List.mk_mem_enum_iff_getElem?.mp
          (show (p.1, p.2) ∈ results.enum from hpe)
        exact List.getElem?_mem this
      exact ⟨p.2, this, rfl⟩

/-- Witness for C6: one context fragment and a model citing nothing; the
fallback cites exactly the fragment placed in the prompt. -/
theorem answer_citations_witness :
    (answer [⟨⟨1, 1, "refund policy details", 820, "doc", 0, 5⟩, 900, 1⟩] []
        (fun _ => [])).citations
      = [⟨1, 1, "doc", 820⟩] :=
  (answer_citations [⟨⟨1, 1, "refund policy details", 820, "doc", 0, 5⟩, 900, 1⟩]
    [] (fun _ => []) (by simp)).1 rfl

/-! ## Error envelope and the client-side error path
(`frontend/src/services/api.ts`) -/

/-- The backend's unified error body (`RESULTS` of the enhanced error
handlers): message, machine-readable code, timestamp, trace (correlation)
id, optional structured details. -/
structure ErrorBody where
  message : String
  code : String
  timestamp : Nat
  traceId : String
  details : Option String
deriving DecidableEq

/-- Modelled from the spec: the backend error taxonomy
(`app/core` error classes, only documented in
`ERROR_HANDLING_IMPLEMENTATION_SUMMARY.md`). -/
inductive APIErrorKind where
  | aiService
  | circuitBreaker
  | serviceDegradation
  | documentProcessing
  | rateLimit
  | validation
  | generic
deriving DecidableEq

/-- The machine-readable code of each error kind. -/
def errorCode : APIErrorKind → String
  | .aiService => "AI_SERVICE_ERROR"
  | .circuitBreaker => "CIRCUIT_BREAKER_OPEN"
  | .serviceDegradation => "SERVICE_DEGRADATION"
  | .documentProcessing => "DOCUMENT_PROCESSING_ERROR"
  | .rateLimit => "RATE_LIMIT_EXCEEDED"
  | .validation => "VALIDATION_ERROR"
  | .generic => "INTERNAL_ERROR"

/-- Modelled from the spec: the enhanced exception handlers normalize every
error raised at the API boundary into the unified envelope. -/
def buildErrorResponse (k : APIErrorKind) (msg : String) (timestamp : Nat)
    (traceId : String) (details : Option String) : ErrorBody :=
  ⟨msg, errorCode k, timestamp, traceId, details⟩

/-- One HTTP error response as seen by the axios interceptor: status code
and the parsed error body, when the payload carried one. -/
structure AxiosResponseInfo where
  status : Nat
  data : Option ErrorBody
deriving DecidableEq

/-- An axios error: the response (absent on network failure) and the
transport-level message. -/
structure AxiosError where
  response : Option AxiosResponseInfo
  message : String
deriving DecidableEq

/-- JavaScript `a || b` on an optional string: an absent or empty string
falls through to the default. -/
def jsOr (a : Option String) (b : String) : String :=
  match a with
  | some s => if s == "" then b else s
  | none => b

/-- The message the interceptor computes:
`error.response?.data?.error?.message || error.message || "An error
occurred"`. -/
def interceptMessage (e : AxiosError) : String :=
  jsOr (e.response.bind (fun r => r.data.map (fun b => b.message)))
    (jsOr (some e.message) "An error occurred")

/-- The value the response interceptor rejects with: either the raw axios
error (the 401 path), or the normalized object
`\x7b status, message, data \x7d`. -/
inductive RejectedValue where
  | raw (e : AxiosError)
  | normalized (status : Option Nat) (message : String) (data : Option ErrorBody)
deriving DecidableEq

/-- The response interceptor of `frontend/src/services/api.ts`: a 401
response clears the stored tokens, redirects to the login page, and
rejects with the raw error; every other error is rejected as
`\x7b status, message, data \x7d` with the message drawn from the envelope
when present. -/
def responseInterceptorError (e : AxiosError) : RejectedValue :=
  if e.response.map (fun r => r.status) = some 401 then
    .raw e
  else
    .normalized (e.response.map (fun r => r.status)) (interceptMessage e)
      (e.response.bind (fun r => r.data))

/-- C9 counterexample: a 401 response carrying a full error envelope is
re-emitted as the raw axios error, not as the normalized
`\x7b status, message, data \x7d` object — so the client-side error path
does not consume and re-emit the envelope for every non-2xx response. -/
theorem interceptor_401_counterexample :
    responseInterceptorError
        ⟨some ⟨401, some ⟨"Unauthorized", "AUTH_REQUIRED", 0, "t1", none⟩⟩,
         "Request failed"⟩
      = .raw ⟨some ⟨401, some ⟨"Unauthorized", "AUTH_REQUIRED", 0, "t1", none⟩⟩,
         "Request failed"⟩ ∧
    RejectedValue.raw
        (⟨some ⟨401, some ⟨"Unauthorized", "AUTH_REQUIRED", 0, "t1", none⟩⟩,
         "Request failed"⟩ : AxiosError)
      ≠ .normalized (some 401) "Unauthorized"
          (some ⟨"Unauthorized", "AUTH_REQUIRED", 0, "t1", none⟩) := by
  constructor
  · rfl
  · intro h
    cases h

/-- C9 (amended): every backend error is normalized into the unified
envelope (message, code, timestamp, correlation id, optional details); the
client-side error path re-emits the envelope, as
`\x7b status, message, data \x7d` with the message drawn from the
envelope's message when one is present, for every non-2xx response other
than 401; a 401 response is re-emitted raw after clearing tokens and
redirecting to login. -/
theorem errorEnvelope_spec :
    (∀ (k : APIErrorKind) (msg : String) (t : Nat) (tid : String)
        (det : Option String),
      (buildErrorResponse k msg t tid det).message = msg ∧
      (buildErrorResponse k msg t tid det).code = errorCode k ∧
      (buildErrorResponse k msg t tid det).timestamp = t ∧
      (buildErrorResponse k msg t tid det).traceId = tid ∧
      (buildErrorResponse k msg t tid det).details = det) ∧
    (∀ (e : AxiosError) (s : Nat), e.response.map (fun r => r.status) = some s →
      ¬(200 ≤ s ∧ s < 300) → s ≠ 401 →
      responseInterceptorError e
        = .normalized (some s) (interceptMessage e)
            (e.response.bind (fun r => r.data))) ∧
    (∀ (e : AxiosError) (r : AxiosResponseInfo) (b : ErrorBody),
      e.response = some r → r.data = some b → ¬(b.message == "") = true →
      interceptMessage e = b.message) ∧
    (∀ (e : AxiosError), e.response.map (fun r => r.status) = some 401 →
      responseInterceptorError e = .raw e) := by
  refine ⟨?_, ?_, ?_, ?_⟩
  · intro k msg t tid det
    exact ⟨rfl, rfl, rfl, rfl, rfl⟩
  · intro e s hs _ hne
    rw [responseInterceptorError, if_neg]
    · rw [hs]
    · rw [hs]
      intro hcontra
      exact hne (Option.some_inj.mp hcontra)
  · intro e r b hr hb hmsg
    rw [interceptMessage, hr]
    show jsOr (r.data.map (fun b => b.message))
      (jsOr (some e.message) "An error occurred") = b.message
    rw [hb]
    show jsOr (some b.message) (jsOr (some e.message) "An error occurred")
      = b.message
    simp only [jsOr]
    rw [if_neg hmsg]
  · intro e h401
    rw [responseInterceptorError, if_pos h401]

/-- Witness for C9 (amended): a 500 response with an envelope is re-emitted
normalized with the envelope's message; a 401 response is re-emitted
raw. -/
theorem errorEnvelope_spec_witness :
    responseInterceptorError
        ⟨some ⟨500, some ⟨"Server down", "INTERNAL_ERROR", 3, "t9", none⟩⟩, "m"⟩
      = .normalized (some 500)
          (interceptMessage
            ⟨some ⟨500, some ⟨"Server down", "INTERNAL_ERROR", 3, "t9", none⟩⟩, "m"⟩)
          (some ⟨"Server down", "INTERNAL_ERROR", 3, "t9", none⟩) ∧
    interceptMessage
        ⟨some ⟨500, some ⟨"Server down", "INTERNAL_ERROR", 3, "t9", none⟩⟩, "m"⟩
      = "Server down" ∧
    responseInterceptorError
        ⟨some ⟨401, none⟩, "Request failed"⟩
      = .raw ⟨some ⟨401, none⟩, "Request failed"⟩ := by
  refine ⟨?_, ?_, ?_⟩
  · exact (errorEnvelope_spec.2.1
      ⟨some ⟨500, some ⟨"Server down", "INTERNAL_ERROR", 3, "t9", none⟩⟩, "m"⟩
      500 rfl (by omega) (by omega))
  · exact (errorEnvelope_spec.2.2.1
      ⟨some ⟨500, some ⟨"Server down", "INTERNAL_ERROR", 3, "t9", none⟩⟩, "m"⟩
      ⟨500, some ⟨"Server down", "INTERNAL_ERROR", 3, "t9", none⟩⟩
      ⟨"Server down", "INTERNAL_ERROR", 3, "t9", none⟩ rfl rfl (by decide))
  · exact (errorEnvelope_spec.2.2.2 ⟨some ⟨401, none⟩, "Request failed"⟩ rfl)

/-! ## Frontend stores: deleteConversation / deleteDocument
(`frontend/src/stores`) -/

/-- A conversation as held by the chat store. -/
structure Conversation where
  id : String
  title : String
deriving DecidableEq

/-- A chat message as held by the chat store. -/
structure ChatMessage where
  id : String
  content : String
deriving DecidableEq

/-- The chat store's state (`useChatStore`): conversations, the selected
conversation, its messages, the loading/sending flags and the error
field. -/
structure ChatState where
  conversations : List Conversation
  currentConversation : Option Conversation
  messages : List ChatMessage
  isLoading : Bool
  isSending : Bool
  error : Option String
  messagesLoading : Bool
deriving DecidableEq

/-- `useChatStore.deleteConversation`: set loading and clear the error,
call the service (`call` is the service call's outcome); on success filter
the conversation out of the list and, when the current conversation was
the deleted one, clear it and its messages; on failure set the error
(falling back to a fixed message when the service message is empty) and
stop loading, leaving the lists untouched. -/
def deleteConversation (st : ChatState) (cid : String)
    (call : Except String Unit) : ChatState :=
  let st1 := { st with isLoading := true, error := none }
  match call with
  | .ok _ =>
      let st2 := { st1 with
        conversations := st1.conversations.filter (fun c => !(c.id == cid)),
        isLoading := false }
      match st2.currentConversation with
      | some c =>
          if c.id == cid then
            { st2 with currentConversation := none, messages := [] }
          else st2
      | none => st2
  | .error msg =>
      { st1 with
        isLoading := false,
        error := some (if msg == "" then "Failed to delete conversation" else msg) }

/-- A document as held by the document store. -/
structure Document where
  id : String
  filename : String
deriving DecidableEq

/-- The pagination block of the document store. -/
structure Pagination where
  total : Nat
  page : Nat
  limit : Nat
  pages : Nat
deriving DecidableEq

/-- The document store's state (`useDocumentStore`). -/
structure DocumentState where
  documents : List Document
  currentDocument : Option Document
  isLoading : Bool
  isUploading : Bool
  uploadProgress : Nat
  error : Option String
  pagination : Pagination
  searchQuery : String
deriving DecidableEq

/-- `useDocumentStore.deleteDocument`: same shape as
`deleteConversation` — filter the document out on success and clear
`currentDocument` when it was the deleted one; set only the error on
failure. -/
def deleteDocument (st : DocumentState) (did : String)
    (call : Except String Unit) : DocumentState :=
  let st1 := { st with isLoading := true, error := none }
  match call with
  | .ok _ =>
      let st2 := { st1 with
        documents := st1.documents.filter (fun d => !(d.id == did)),
        isLoading := false }
      match st2.currentDocument with
      | some d =>
          if d.id == did then { st2 with currentDocument := none } else st2
      | none => st2
  | .error msg =>
      { st1 with
        isLoading := false,
        error := some (if msg == "" then "Failed to delete document" else msg) }

/-- C10: when `deleteConversation` resolves successfully the conversations
list is the old list with every conversation of that id removed (so none
remains), and if the current conversation had that id, it is cleared along
with the messages; a failed delete leaves the conversations, the current
conversation and the messages unchanged and sets the error (so from a
non-loading state only the error field differs).  `deleteDocument`
preserves the same invariant for documents and `currentDocument`. -/
theorem deleteStores_spec (st : ChatState) (dst : DocumentState)
    (cid did : String) :
    ((deleteConversation st cid (.ok ())).conversations
      = st.conversations.filter (fun c => !(c.id == cid))) ∧
    (∀ c ∈ (deleteConversation st cid (.ok ())).conversations, c.id ≠ cid) ∧
    (∀ c, st.currentConversation = some c → c.id = cid →
      (deleteConversation st cid (.ok ())).currentConversation = none ∧
      (deleteConversation st cid (.ok ())).messages = []) ∧
    (∀ msg,
      (deleteConversation st cid (.error msg)).conversations = st.conversations ∧
      (deleteConversation st cid (.error msg)).currentConversation
        = st.currentConversation ∧
      (deleteConversation st cid (.error msg)).messages = st.messages ∧
      (deleteConversation st cid (.error msg)).error
        = some (if msg == "" then "Failed to delete conversation" else msg) ∧
      (st.isLoading = false →
        deleteConversation st cid (.error msg)
          = { st with
              error := some
                (if msg == "" then "Failed to delete conversation" else msg) })) ∧
    ((deleteDocument dst did (.ok ())).documents
      = dst.documents.filter (fun d => !(d.id == did))) ∧
    (∀ d ∈ (deleteDocument dst did (.ok ())).documents, d.id ≠ did) ∧
    (∀ d, dst.currentDocument = some d → d.id = did →
      (deleteDocument dst did (.ok ())).currentDocument = none) ∧
    (∀ msg,
      (deleteDocument dst did (.error msg)).documents = dst.documents ∧
      (deleteDocument dst did (.error msg)).currentDocument
        = dst.currentDocument ∧
      (deleteDocument dst did (.error msg)).error
        = some (if msg == "" then "Failed to delete document" else msg) ∧
      (dst.isLoading = false →
        deleteDocument dst did (.error msg)
          = { dst with
              error := some
                (if msg == "" then "Failed to delete document" else msg) })) := by
  refine ⟨?_, ?_, ?_, ?_, ?_, ?_, ?_, ?_⟩
  · rw [deleteConversation]
    cases hc : st.currentConversation with
    | none => rfl
    | some c => by_cases h : (c.id == cid) = true <;> simp [hc, h]
  · intro c hc
    rw [deleteConversation] at hc
    have hmem : c ∈ st.conversations.filter (fun c => !(c.id == cid)) := by
      cases hcc : st.currentConversation with
      | none => simpa [hcc] using hc
      | some c0 =>
          by_cases h : (c0.id == cid) = true
          · simpa [hcc, h] using hc
          · simpa [hcc, h] using hc
    have := (List.mem_filter.mp hmem).2
    simpa using this
  · intro c hcc hid
    rw [deleteConversation]
    simp [hcc, hid]
  · intro msg
    refine ⟨rfl, rfl, rfl, rfl, ?_⟩
    intro hload
    rw [deleteConversation]
    cases st with
    | mk a b c d e f g => simp only at hload; subst hload; rfl
  · rw [deleteDocument]
    cases hd : dst.currentDocument with
    | none => rfl
    | some d => by_cases h : (d.id == did) = true <;> simp [hd, h]
  · intro d hd
    rw [deleteDocument] at hd
    have hmem : d ∈ dst.documents.filter (fun d => !(d.id == did)) := by
      cases hdd : dst.currentDocument with
      | none => simpa [hdd] using hd
      | some d0 =>
          by_cases h : (d0.id == did) = true
          · simpa [hdd, h] using hd
          · simpa [hdd, h] using hd
    have := (List.mem_filter.mp hmem).2
    simpa using this
  · intro d hdd hid
    rw [deleteDocument]
    simp [hdd, hid]
  · intro msg
    refine ⟨rfl, rfl, rfl, ?_⟩
    intro hload
    rw [deleteDocument]
    cases dst with
    | mk a b c d e f g h => simp only at hload; subst hload; rfl

/-- Witness for C10: deleting the selected conversation removes it from the
list and clears the selection and messages; a failed document delete leaves
the store unchanged apart from the error field. -/
theorem deleteStores_spec_witness :
    (deleteConversation
        ⟨[⟨"c1", "t"⟩], some ⟨"c1", "t"⟩, [⟨"m1", "x"⟩], false, false, none, false⟩
        "c1" (.ok ())).currentConversation = none ∧
    (deleteConversation
        ⟨[⟨"c1", "t"⟩], some ⟨"c1", "t"⟩, [⟨"m1", "x"⟩], false, false, none, false⟩
        "c1" (.ok ())).messages = [] ∧
    deleteDocument
        ⟨[⟨"d1", "f"⟩], none, false, false, 0, none, ⟨0, 1, 20, 0⟩, ""⟩
        "d1" (.error "boom")
      = ⟨[⟨"d1", "f"⟩], none, false, false, 0, some "boom", ⟨0, 1, 20, 0⟩, ""⟩ := by
  have h := deleteStores_spec
    ⟨[⟨"c1", "t"⟩], some ⟨"c1", "t"⟩, [⟨"m1", "x"⟩], false, false, none, false⟩
    ⟨[⟨"d1", "f"⟩], none, false, false, 0, none, ⟨0, 1, 20, 0⟩, ""⟩ "c1" "d1"
  have hcur := h.2.2.1 ⟨"c1", "t"⟩ rfl rfl
  have hdoc := (h.2.2.2.2.2.2.2 "boom").2.2.2 rfl
  exact ⟨hcur.1, hcur.2, by rw [hdoc]; simp⟩

end AIKB
